import Mathlib

/-!
Verification of the test-plan execution engine of the
`test_automation_framework` repository: a shallow embedding of
`libs/test_library.py`, `libs/tmp_area_library.py` and
`libs/log_library.py`, together with theorems about the engine's
documented behaviour.

Conventions of the embedding:
* Python dictionaries are association lists preserving insertion order
  (`dictSet` overwrites in place, appends new keys at the end — exactly
  the observable behaviour of `d[k] = v`).
* Python values occurring in parameter trees and step results are the
  inductive `PyVal` (strings, ints, bools, None, lists, dicts).
* Functions that can `raise` are embedded in `Except String`.
* Filesystem and clock effects (`os.makedirs`, `datetime.now`,
  `importlib` loading, writing log files) are ambient IO; they are
  modelled by explicit parameters (the created temp path, the resolution
  environment mapping a step to its imported callable) and by events in
  an execution trace.  Floating point division for the success rate is
  modelled over `ℚ`; the claims under study concern the guarding of the
  division, not float rounding.
* The host platform is Linux, so `os.path.normpath` is
  `posixpath.normpath`, which is embedded concretely below.
-/

/-! ### Python string helpers (stdlib behaviour used by the library) -/

/-- Split a character list on `'/'`, like `str.split('/')` in Python
(always returns at least one, possibly empty, component). -/
def splitOnSlash : List Char → List (List Char)
  | [] => [[]]
  | c :: rest =>
    match splitOnSlash rest with
    | [] => if c = '/' then [[], []] else [[c]]
    | comp :: comps =>
      if c = '/' then [] :: comp :: comps
      else (c :: comp) :: comps

/-- Join components with `'/'`, like `'/'.join(...)` in Python. -/
def joinWithSlash : List (List Char) → List Char
  | [] => []
  | [comp] => comp
  | comp :: comps => comp ++ '/' :: joinWithSlash comps

/-- Substring membership test, like Python's `pat in s`. -/
def containsSub : List Char → List Char → Bool
  | [], pat => pat.isEmpty
  | c :: rest, pat => pat.isPrefixOf (c :: rest) || containsSub rest pat

/-- Substring membership test, like Python's `pat in s`. -/
def strContains (s pat : String) : Bool := containsSub s.data pat.data

/-- Replace every (leftmost, non-overlapping) occurrence of `pat` by
`rep`, like Python's `s.replace(pat, rep)` for a non-empty `pat`.
Structural recursion on a fuel bound (each step consumes at least one
character, so any `fuel ≥ s.length` computes the full replacement). -/
def replaceAll : Nat → List Char → List Char → List Char → List Char
  | 0, s, _, _ => s
  | fuel + 1, s, pat, rep =>
    match s with
    | [] => []
    | c :: rest =>
      if pat ≠ [] ∧ pat.isPrefixOf (c :: rest) then
        rep ++ replaceAll fuel ((c :: rest).drop pat.length) pat rep
      else
        c :: replaceAll fuel rest pat rep

/-- Replace every occurrence of `pat` by `rep`, like `s.replace(pat, rep)`. -/
def strReplace (s pat rep : String) : String :=
  String.mk (replaceAll s.data.length s.data pat.data rep.data)

/-- One step of the component scan of `posixpath.normpath`:
`''` and `'.'` components are dropped, `'..'` pops a previous component
unless it must be kept (relative path with nothing to pop, or the
previous component is itself an unpopped `'..'`). -/
def normpathStep (initialSlashes : Nat) (acc : List (List Char)) (comp : List Char) :
    List (List Char) :=
  if comp = [] ∨ comp = ['.'] then acc
  else if comp ≠ ['.', '.'] ∨ (initialSlashes = 0 ∧ acc = []) ∨
      (acc ≠ [] ∧ acc.getLast? = some ['.', '.']) then acc ++ [comp]
  else if acc ≠ [] then acc.dropLast
  else acc

/-- `posixpath.normpath` (the `os.path.normpath` of the Linux host):
collapses duplicate separators, drops `'.'` components, resolves `'..'`
where possible, keeps the POSIX-special double leading slash. -/
def posixNormpath (path : String) : String :=
  if path = "" then "." else
  let cs := path.data
  let initialSlashes : Nat :=
    if cs.take 1 = ['/'] then
      if cs.take 2 = ['/', '/'] ∧ cs.take 3 ≠ ['/', '/', '/'] then 2 else 1
    else 0
  let comps := splitOnSlash cs
  let newComps := comps.foldl (normpathStep initialSlashes) []
  let joined := List.replicate initialSlashes '/' ++ joinWithSlash newComps
  if joined = [] then "." else String.mk joined

/-- `posixpath.join` for the two-argument uses in the library:
an absolute second component replaces the first, otherwise the parts
are glued with exactly one `'/'`. -/
def pyJoin (b p : String) : String :=
  if p.data.take 1 = ['/'] then p
  else if b = "" ∨ b.data.getLast? = some '/' then b ++ p
  else b ++ "/" ++ p

/-! ### Python values (parameter trees and step-result maps) -/

/-- A Python value as it occurs in test-plan parameter trees and in step
result maps: strings, ints, bools, `None`, lists and (insertion-ordered)
dicts with string keys. -/
inductive PyVal where
  | str (s : String)
  | int (n : Int)
  | bool (b : Bool)
  | none
  | list (items : List PyVal)
  | dict (entries : List (String × PyVal))

/-- A Python dict with string keys, as used for step-result maps. -/
abbrev PyDict := List (String × PyVal)

/-- `d[k]` lookup on an association-list dict. -/
def dictLookup : PyDict → String → Option PyVal
  | [], _ => Option.none
  | (k', v) :: rest, k => if k' = k then Option.some v else dictLookup rest k

/-- `d.get(k, default)`. -/
def dictGet (d : PyDict) (k : String) (default : PyVal) : PyVal :=
  (dictLookup d k).getD default

/-- `d[k] = v`: overwrite in place if the key exists (order kept),
append otherwise. -/
def dictSet (d : PyDict) (k : String) (v : PyVal) : PyDict :=
  match d with
  | [] => [(k, v)]
  | (k', v') :: rest => if k' = k then (k, v) :: rest else (k', v') :: dictSet rest k v

/-- Python's `value == 0` on the values a returncode can hold
(`0 == 0` and `False == 0` are true; strings, `None`, containers are
never `== 0`). -/
def pyEqIntZero : PyVal → Bool
  | PyVal.int n => n == 0
  | PyVal.bool b => !b
  | _ => false

/-! ### Temp-Area Manager (`libs/tmp_area_library.py`) -/

/-- The `<tmp>` placeholder token. -/
def tmpToken : String := "<tmp>"

/-- The state of `TmpAreaManager` that the claims depend on:
`tmp_framework_path` is `none` before `create_tmp_area` has run. -/
structure TmpAreaManagerState where
  tmp_framework_path : Option String
  execution_id : Option String

/-- Pure core of the substitution performed by `resolve_tmp_path` on a
string that contains the token: replace `<tmp>` by the temp path, then
`os.path.normpath`. -/
def resolveStringTag (t s : String) : String :=
  posixNormpath (strReplace s tmpToken t)

/-- `TmpAreaManager.resolve_tmp_path` (tmp_area_library.py:159-181).
Raises `ValueError` (embedded as `Except.error`) when no temp area has
been created — this check runs first, for every input.  A string
containing `<tmp>` is substituted and separator-normalized; any other
input is returned unchanged. -/
def resolve_tmp_path (tmp_framework_path : Option String) (path_with_tag : PyVal) :
    Except String PyVal :=
  match tmp_framework_path with
  | Option.none => Except.error "Temporary area not created. Call create_tmp_area() first."
  | Option.some t =>
    match path_with_tag with
    | PyVal.str s =>
      if strContains s tmpToken then
        Except.ok (PyVal.str (resolveStringTag t s))
      else
        Except.ok (PyVal.str s)
    | v => Except.ok v

mutual

/-- `TmpAreaManager.process_parameters` (tmp_area_library.py:183-210).
A non-dict argument is returned unchanged; for a dict, each value is
processed: strings through `resolve_tmp_path`, dicts recursively, lists
elementwise (dict elements recursively, string elements through
`resolve_tmp_path`, every other element — including a nested list —
unchanged); other values pass through.  A `ValueError` raised by
`resolve_tmp_path` propagates. -/
def process_parameters (tmp : Option String) : PyVal → Except String PyVal
  | PyVal.dict entries => do
    let es ← processDictEntries tmp entries
    pure (PyVal.dict es)
  | v => Except.ok v

/-- The `for key, value in parameters.items()` loop of
`process_parameters`, building `processed_params` in order. -/
def processDictEntries (tmp : Option String) : List (String × PyVal) →
    Except String (List (String × PyVal))
  | [] => Except.ok []
  | (k, v) :: rest => do
    let v' ← processDictValue tmp v
    let rest' ← processDictEntries tmp rest
    pure ((k, v') :: rest')

/-- The per-value branch of the `process_parameters` loop. -/
def processDictValue (tmp : Option String) : PyVal → Except String PyVal
  | PyVal.str s => resolve_tmp_path tmp (PyVal.str s)
  | PyVal.dict es => do
    let es' ← processDictEntries tmp es
    pure (PyVal.dict es')
  | PyVal.list items => do
    let items' ← processListItems tmp items
    pure (PyVal.list items')
  | v => Except.ok v

/-- The list comprehension of `process_parameters`: dict elements are
recursed into, string elements resolved, all other elements (ints,
bools, `None`, and nested lists) kept as they are. -/
def processListItems (tmp : Option String) : List PyVal →
    Except String (List PyVal)
  | [] => Except.ok []
  | item :: rest => do
    let item' ←
      match item with
      | PyVal.dict es => do
        let es' ← processDictEntries tmp es
        pure (PyVal.dict es')
      | PyVal.str s => resolve_tmp_path tmp (PyVal.str s)
      | v => Except.ok v
    let rest' ← processListItems tmp rest
    pure (item' :: rest')

end

/-- `TmpAreaManager.create_tmp_area` (tmp_area_library.py:64-100),
success path: sets `execution_id`, composes
`tmp_framework_path = os.path.join(base, execution_id)`, creates the
directory (an ambient filesystem effect) and returns the
step-result-shaped success map. -/
def create_tmp_area (base execution_id : String) :
    TmpAreaManagerState × PyDict :=
  let path := pyJoin base execution_id
  (⟨Option.some path, Option.some execution_id⟩,
   [("stdout", PyVal.str ("Temporary area created: " ++ path)),
    ("stderr", PyVal.str ""),
    ("exception", PyVal.str ""),
    ("returncode", PyVal.int 0)])

/-! ### Step function outcomes and the execution engine
(`libs/test_library.py`) -/

/-- The observable outcome of invoking a step function: either it
returns a step-result map (the ABI of §3 of the design: a dict), or it
raises an exception with the given text. -/
inductive FuncOutcome where
  | ret (m : PyDict)
  | raise (e : String)

/-- One step of a test plan (the validated shape: all required keys
present). -/
structure Step where
  step_number : Int
  test_script : String
  test_function : String
  parameters : PyVal

/-- A test case (`negative_test` via `.get("negative_test", False)`). -/
structure TestCase where
  id : Int
  name : String
  negative_test : Bool
  steps : List Step

/-- A loaded test plan. -/
structure TestPlan where
  name : String
  test_cases : List TestCase

/-- The resolution environment: what `import_test_function` yields for a
step — `none` when the script file or the function is missing (the
loader catches everything and returns `None`), otherwise the callable,
modelled as a function from the processed parameter tree to the
invocation's outcome. -/
abbrev ResolutionEnv := Step → Option (PyVal → FuncOutcome)

/-- An Execution Record (`step_result` in `execute_test_step`), with the
fields the claims depend on; the wall-clock `timestamp` and the copied
`authentication` map are omitted (ambient IO / pass-through copies). -/
structure StepRecord where
  test_case : String
  step_number : Int
  test_script : String
  test_function : String
  parameters : PyVal
  is_negative_test : Bool
  result : PyDict

/-- The canned failure map of the import-failure branch
(test_library.py:133-138). -/
def importFailResult (function_name : String) : PyDict :=
  [("stdout", PyVal.str ""),
   ("stderr", PyVal.str ("Failed to import function " ++ function_name)),
   ("exception", PyVal.str "Function import failed"),
   ("returncode", PyVal.int 3)]

/-- The failure map of the `except` branch (test_library.py:141-146). -/
def execErrorResult (e : String) : PyDict :=
  [("stdout", PyVal.str ""),
   ("stderr", PyVal.str ("Execution error: " ++ e)),
   ("exception", PyVal.str e),
   ("returncode", PyVal.int 4)]

/-- Negative-test inversion (test_library.py:117-121): read the
original returncode (default 1), store the inverted code
(`0 if original != 0 else 1`), keep the original under
`original_returncode`, and mark the result. -/
def invertNegative (m : PyDict) : PyDict :=
  let original := dictGet m "returncode" (PyVal.int 1)
  let m1 := dictSet m "returncode"
    (PyVal.int (if pyEqIntZero original then 1 else 0))
  let m2 := dictSet m1 "original_returncode" original
  dictSet m2 "is_negative_test" (PyVal.bool true)

/-- `TestAutomationFramework.execute_test_step` (test_library.py:78-156)
for a step without an `authentication` block.  The `try` block resolves
the function, processes parameters (a `ValueError` from `<tmp>`
resolution is caught by the same `except` and becomes a returncode-4
result), invokes the function, applies negative-test inversion; the
import-failure branch stores the canned returncode-3 map; any raised
exception becomes the returncode-4 map. -/
def execute_test_step (tmp : Option String) (env : ResolutionEnv)
    (step : Step) (test_case_name : String) (is_negative_test : Bool) :
    StepRecord :=
  let base : StepRecord :=
    { test_case := test_case_name
      step_number := step.step_number
      test_script := step.test_script
      test_function := step.test_function
      parameters := step.parameters
      is_negative_test := is_negative_test
      result := [] }
  match env step with
  | Option.some f =>
    match process_parameters tmp step.parameters with
    | Except.error e => { base with result := execErrorResult e }
    | Except.ok processed =>
      match f processed with
      | FuncOutcome.raise e => { base with result := execErrorResult e }
      | FuncOutcome.ret m =>
        if is_negative_test then { base with result := invertNegative m }
        else { base with result := m }
  | Option.none => { base with result := importFailResult step.test_function }

/-- `TestAutomationFramework.execute_test_case` (test_library.py:158-172):
every step of the case is executed, with the case's `negative_test`
flag and name. -/
def execute_test_case (tmp : Option String) (env : ResolutionEnv)
    (test_case : TestCase) : List StepRecord :=
  test_case.steps.map
    (fun step => execute_test_step tmp env step test_case.name test_case.negative_test)

/-! ### JSON execution logger (`libs/log_library.py`) -/

/-- The running `results` totals of `JSONExecutionLogger`
(`success_rate` over `ℚ` in place of float). -/
structure LoggerResults where
  total_steps : Nat
  passed_steps : Nat
  failed_steps : Nat
  success_rate : ℚ

/-- The totals installed by `start_execution` (log_library.py:232-237). -/
def startLoggerResults : LoggerResults :=
  { total_steps := 0, passed_steps := 0, failed_steps := 0, success_rate := 0 }

/-- The pass test of the logger and of the plan summary:
`step_result["result"].get("returncode", 1) == 0`. -/
def stepPassed (r : StepRecord) : Bool :=
  pyEqIntZero (dictGet r.result "returncode" (PyVal.int 1))

/-- `JSONExecutionLogger.add_step_result` (log_library.py:241-273),
totals part: one step counted, as passed iff its returncode is 0, and
the success rate recomputed whenever the total is positive. -/
def add_step_result (s : LoggerResults) (r : StepRecord) : LoggerResults :=
  let s1 := { s with total_steps := s.total_steps + 1 }
  let s2 :=
    if stepPassed r then { s1 with passed_steps := s1.passed_steps + 1 }
    else { s1 with failed_steps := s1.failed_steps + 1 }
  if s2.total_steps > 0 then
    { s2 with success_rate := (s2.passed_steps : ℚ) / (s2.total_steps : ℚ) * 100 }
  else s2

/-! ### Plan execution (`execute_test_plan`, test_library.py:174-245) -/

/-- The externally visible lifecycle events of one `execute_test_plan`
call, in program order. -/
inductive PlanEvent where
  | startLogging
  | createTmp
  | displayPlanStart
  | displayCaseStart
  | addStepToLogger
  | displaySummary
  | finishLogging
  | cleanupTmp
deriving DecidableEq

/-- The in-memory `plan_results` structure (name and the flattened
Execution Records; path, timestamp and tmp-area info omitted as ambient
IO). -/
structure PlanResults where
  plan_name : String
  test_cases : List StepRecord

/-- Everything one `execute_test_plan` call produces: its lifecycle
trace, the returned `plan_results`, and the JSON logger totals. -/
structure PlanExecOutcome where
  events : List PlanEvent
  results : PlanResults
  logger : LoggerResults

/-- `TestAutomationFramework.execute_test_plan` (test_library.py:174-245)
on a successfully loaded plan, with the temp area created at `tmp`:
start the JSON logger, create the temp area, display the plan start;
if a `test_case_id` filter is set and matches no case, clean up the
temp area and return the (empty) plan results at once; otherwise run
every selected case, feed each record to the JSON logger, display the
summary, finish the JSON log, clean up, and return. -/
def execute_test_plan (tmp : String) (env : ResolutionEnv)
    (test_case_id : Option Int) (plan : TestPlan) : PlanExecOutcome :=
  let ev0 := [PlanEvent.startLogging, PlanEvent.createTmp, PlanEvent.displayPlanStart]
  let test_cases_to_execute :=
    match test_case_id with
    | Option.none => plan.test_cases
    | Option.some i => plan.test_cases.filter (fun tc => tc.id == i)
  if test_case_id.isSome ∧ test_cases_to_execute.isEmpty then
    { events := ev0 ++ [PlanEvent.cleanupTmp]
      results := { plan_name := plan.name, test_cases := [] }
      logger := startLoggerResults }
  else
    let caseRecords := test_cases_to_execute.map
      (fun tc => execute_test_case (Option.some tmp) env tc)
    let allRecords := caseRecords.join
    let caseEvents := caseRecords.map
      (fun records => PlanEvent.displayCaseStart ::
        records.map (fun _ => PlanEvent.addStepToLogger))
    { events := ev0 ++ caseEvents.join ++
        [PlanEvent.displaySummary, PlanEvent.finishLogging, PlanEvent.cleanupTmp]
      results := { plan_name := plan.name, test_cases := allRecords }
      logger := allRecords.foldl add_step_result startLoggerResults }

/-! ### Console summary and aggregate report
(`LogManager.display_test_plan_summary`, log_library.py:128-149, and
`create_test_execution_report`, test_library.py:330-370) -/

/-- The success rate shown by `display_test_plan_summary`: `none` models
the `"Success Rate: N/A"` branch taken when no step ran. -/
def displaySummarySuccessRate (total_steps passed_steps : Nat) : Option ℚ :=
  if total_steps > 0 then
    Option.some ((passed_steps : ℚ) / (total_steps : ℚ) * 100)
  else Option.none

/-- The `summary` object built by `create_test_execution_report`; the
input is the list of plans' record lists. -/
structure ReportSummary where
  total_plans : Nat
  total_steps : Nat
  total_passed : Nat
  success_rate : ℚ
  total_failed : Nat

/-- `create_test_execution_report` (test_library.py:330-370), summary
part: totals summed over the plans, the success rate guarded by
`total_steps > 0` (0 otherwise). -/
def create_test_execution_report_summary (results : List (List StepRecord)) :
    ReportSummary :=
  let total_steps := (results.map List.length).sum
  let total_passed := (results.map (fun plan => (plan.filter stepPassed).length)).sum
  { total_plans := results.length
    total_steps := total_steps
    total_passed := total_passed
    success_rate :=
      if total_steps > 0 then (total_passed : ℚ) / (total_steps : ℚ) * 100 else 0
    total_failed := total_steps - total_passed }

/-! ### Spec-side deep resolution and nesting predicate (for the
`process_parameters` coverage claim) -/

mutual

/-- Modelled from the spec's words for comparison with the code's
`process_parameters`: "deep-walks a parameter tree (maps, sequences,
scalars) applying `resolve` to every string leaf; maps and sequences
are recursed into; other types pass through verbatim". -/
def spec_deep_resolve (tmp : Option String) : PyVal → Except String PyVal
  | PyVal.str s => resolve_tmp_path tmp (PyVal.str s)
  | PyVal.dict es => do
    let es' ← specDeepResolveEntries tmp es
    pure (PyVal.dict es')
  | PyVal.list items => do
    let items' ← specDeepResolveItems tmp items
    pure (PyVal.list items')
  | v => Except.ok v

/-- Map-entry walk of `spec_deep_resolve`. -/
def specDeepResolveEntries (tmp : Option String) : List (String × PyVal) →
    Except String (List (String × PyVal))
  | [] => Except.ok []
  | (k, v) :: rest => do
    let v' ← spec_deep_resolve tmp v
    let rest' ← specDeepResolveEntries tmp rest
    pure ((k, v') :: rest')

/-- Sequence walk of `spec_deep_resolve`. -/
def specDeepResolveItems (tmp : Option String) : List PyVal →
    Except String (List PyVal)
  | [] => Except.ok []
  | item :: rest => do
    let item' ← spec_deep_resolve tmp item
    let rest' ← specDeepResolveItems tmp rest
    pure (item' :: rest')

end

mutual

/-- No sequence appears as a direct element of another sequence
anywhere in the tree. -/
def noSeqInSeq : PyVal → Bool
  | PyVal.dict es => noSeqInSeqEntries es
  | PyVal.list items => noSeqInSeqItems items
  | _ => true

/-- `noSeqInSeq` over the values of a map. -/
def noSeqInSeqEntries : List (String × PyVal) → Bool
  | [] => true
  | (_, v) :: rest => noSeqInSeq v && noSeqInSeqEntries rest

/-- `noSeqInSeq` over the elements of a sequence: no element may itself
be a sequence. -/
def noSeqInSeqItems : List PyVal → Bool
  | [] => true
  | item :: rest =>
    (match item with
     | PyVal.list _ => false
     | v => noSeqInSeq v) && noSeqInSeqItems rest

end

/-! ### Heap model of `process_parameters` (for the no-mutation claim)

Python dicts and lists are mutable heap objects; strings, ints, bools
and `None` are immutable.  The heap is a list of cells addressed by
index; allocation appends, and the only writes `process_parameters`
performs are the `processed_params[key] = ...` assignments on the dict
it has just allocated.  The no-mutation claim is then: every address
that existed before the call holds the same cell afterwards. -/

/-- An immutable Python value, stored inline in references. -/
inductive HPrim where
  | str (s : String)
  | int (n : Int)
  | bool (b : Bool)
  | none
deriving DecidableEq

/-- A reference: an immutable value or the address of a heap cell. -/
inductive HRef where
  | prim (p : HPrim)
  | addr (a : Nat)
deriving DecidableEq

/-- A mutable heap cell: a dict (insertion-ordered entries) or a list. -/
inductive HCell where
  | dict (entries : List (String × HRef))
  | list (items : List HRef)
deriving DecidableEq

/-- The heap: cell at address `a` is `cells[a]`. -/
structure Heap where
  cells : List HCell
deriving DecidableEq

/-- Read the cell at an address. -/
def Heap.read (h : Heap) (a : Nat) : Option HCell := h.cells.get? a

/-- Allocate a new cell, returning its address. -/
def Heap.alloc (h : Heap) (c : HCell) : Heap × Nat :=
  (⟨h.cells ++ [c]⟩, h.cells.length)

/-- Overwrite the cell at an address (no-op when out of range, which
never happens for the valid addresses the code writes to). -/
def Heap.write (h : Heap) (a : Nat) (c : HCell) : Heap := ⟨h.cells.set a c⟩

/-- `processed_params[key] = v` on the freshly allocated dict at `a`:
append the entry to its entry list. -/
def Heap.appendEntry (h : Heap) (a : Nat) (k : String) (v : HRef) : Heap :=
  match h.read a with
  | Option.some (HCell.dict es) => h.write a (HCell.dict (es ++ [(k, v)]))
  | _ => h

/-- `resolve_tmp_path` on a string once the temp area exists (the heap
model is invoked with a created temp area, so the not-created branch
cannot fire): substitute and normalize when the token occurs. -/
def hResolveString (t s : String) : String :=
  if strContains s tmpToken then resolveStringTag t s else s

mutual

/-- `TmpAreaManager.process_parameters` over the mutable heap, with a
fuel bound standing for the Python call stack (a cyclic input would not
terminate in Python either).  A reference to anything but a dict cell
is returned unchanged; for a dict cell, a fresh dict is allocated and
filled entry by entry, exactly as the Python loop assigns into
`processed_params`. -/
def hProcessParameters (t : String) : Nat → Heap → HRef → Option (Heap × HRef)
  | 0, _, _ => Option.none
  | _ + 1, h, HRef.prim p => Option.some (h, HRef.prim p)
  | fuel + 1, h, HRef.addr a =>
    match h.read a with
    | Option.some (HCell.dict entries) =>
      let (h1, aNew) := h.alloc (HCell.dict [])
      match hProcessEntries t fuel h1 aNew entries with
      | Option.some h2 => Option.some (h2, HRef.addr aNew)
      | Option.none => Option.none
    | _ => Option.some (h, HRef.addr a)

/-- The `for key, value in parameters.items()` loop over the heap:
process each value and append it to the new dict at `aNew`. -/
def hProcessEntries (t : String) : Nat → Heap → Nat → List (String × HRef) →
    Option Heap
  | 0, _, _, _ => Option.none
  | _ + 1, h, _, [] => Option.some h
  | fuel + 1, h, aNew, (k, v) :: rest =>
    match hProcessValue t fuel h v with
    | Option.some (h1, v') => hProcessEntries t fuel (h1.appendEntry aNew k v') aNew rest
    | Option.none => Option.none

/-- The per-value branch: strings are resolved (immutable, no heap
effect), dict cells are processed recursively, list cells are rebuilt
as fresh list cells with the comprehension's elementwise rule. -/
def hProcessValue (t : String) : Nat → Heap → HRef → Option (Heap × HRef)
  | 0, _, _ => Option.none
  | _ + 1, h, HRef.prim (HPrim.str s) =>
    Option.some (h, HRef.prim (HPrim.str (hResolveString t s)))
  | _ + 1, h, HRef.prim p => Option.some (h, HRef.prim p)
  | fuel + 1, h, HRef.addr a =>
    match h.read a with
    | Option.some (HCell.dict entries) =>
      let (h1, aNew) := h.alloc (HCell.dict [])
      match hProcessEntries t fuel h1 aNew entries with
      | Option.some h2 => Option.some (h2, HRef.addr aNew)
      | Option.none => Option.none
    | Option.some (HCell.list items) =>
      match hProcessItems t fuel h items with
      | Option.some (h1, items') =>
        let (h2, aNew) := h1.alloc (HCell.list items')
        Option.some (h2, HRef.addr aNew)
      | Option.none => Option.none
    | Option.none => Option.some (h, HRef.addr a)

/-- The list comprehension over the heap: dict elements are processed
recursively, string elements resolved, every other element — including
a reference to a nested list — kept as the same reference. -/
def hProcessItems (t : String) : Nat → Heap → List HRef →
    Option (Heap × List HRef)
  | 0, _, _ => Option.none
  | _ + 1, h, [] => Option.some (h, [])
  | fuel + 1, h, item :: rest =>
    let step : Option (Heap × HRef) :=
      match item with
      | HRef.addr a =>
        match h.read a with
        | Option.some (HCell.dict entries) =>
          let (h1, aNew) := h.alloc (HCell.dict [])
          match hProcessEntries t fuel h1 aNew entries with
          | Option.some h2 => Option.some (h2, HRef.addr aNew)
          | Option.none => Option.none
        | _ => Option.some (h, HRef.addr a)
      | HRef.prim (HPrim.str s) =>
        Option.some (h, HRef.prim (HPrim.str (hResolveString t s)))
      | HRef.prim p => Option.some (h, HRef.prim p)
    match step with
    | Option.some (h1, item') =>
      match hProcessItems t fuel h1 rest with
      | Option.some (h2, rest') => Option.some (h2, item' :: rest')
      | Option.none => Option.none
    | Option.none => Option.none

end

/-! ### Association-list dict lemmas -/

theorem dictLookup_dictSet_self (d : PyDict) (k : String) (v : PyVal) :
    dictLookup (dictSet d k v) k = Option.some v := by
  induction d with
  | nil => simp [dictSet, dictLookup]
  | cons kv rest ih =>
    obtain ⟨k', v'⟩ := kv
    by_cases hk : k' = k
    · simp [dictSet, dictLookup, hk]
    · simp [dictSet, dictLookup, hk, ih]

theorem dictLookup_dictSet_ne (d : PyDict) (k k' : String) (v : PyVal)
    (hne : k' ≠ k) :
    dictLookup (dictSet d k' v) k = dictLookup d k := by
  induction d with
  | nil => simp [dictSet, dictLookup, hne]
  | cons kv rest ih =>
    obtain ⟨k'', v''⟩ := kv
    by_cases hk : k'' = k'
    · subst hk
      simp [dictSet, dictLookup, hne]
    · by_cases hk2 : k'' = k
      · subst hk2
        simp [dictSet, dictLookup, hk]
      · simp [dictSet, dictLookup, hk, hk2, ih]

/-- Case characterization of the result map built by
`execute_test_step`, one equation per path of the `try`/`except`. -/
theorem execute_test_step_result (tmp : Option String) (env : ResolutionEnv)
    (step : Step) (name : String) (neg : Bool) :
    (execute_test_step tmp env step name neg).result =
      (match env step with
       | Option.none => importFailResult step.test_function
       | Option.some f =>
         match process_parameters tmp step.parameters with
         | Except.error e => execErrorResult e
         | Except.ok processed =>
           match f processed with
           | FuncOutcome.raise e => execErrorResult e
           | FuncOutcome.ret m => if neg then invertNegative m else m) := by
  unfold execute_test_step
  cases env step with
  | none => rfl
  | some f =>
    dsimp only
    cases process_parameters tmp step.parameters with
    | error e => rfl
    | ok processed =>
      dsimp only
      cases f processed with
      | raise e => rfl
      | ret m => cases neg <;> rfl

/-! ### C1 — negative-test returncode inversion -/

/-- C1: for every step executed inside a negative test case whose step
function returns a result with returncode `r`, the recorded returncode
is `1` when `r = 0` and `0` when `r ≠ 0`, and the original returncode is
preserved under `original_returncode`. -/
theorem negative_test_inversion
    (tmp : Option String) (env : ResolutionEnv) (step : Step)
    (name : String) (f : PyVal → FuncOutcome) (processed : PyVal)
    (m : PyDict) (r : Int)
    (henv : env step = Option.some f)
    (hproc : process_parameters tmp step.parameters = Except.ok processed)
    (hret : f processed = FuncOutcome.ret m)
    (hrc : dictLookup m "returncode" = Option.some (PyVal.int r)) :
    dictLookup (execute_test_step tmp env step name true).result "returncode"
      = Option.some (PyVal.int (if r = 0 then 1 else 0)) ∧
    dictLookup (execute_test_step tmp env step name true).result "original_returncode"
      = Option.some (PyVal.int r) := by
  have hres : (execute_test_step tmp env step name true).result = invertNegative m := by
    rw [execute_test_step_result]
    simp only [henv, hproc, hret, if_true]
  rw [hres]
  unfold invertNegative
  have horig : dictGet m "returncode" (PyVal.int 1) = PyVal.int r := by
    simp [dictGet, hrc]
  rw [horig]
  constructor
  · rw [dictLookup_dictSet_ne _ _ _ _ (by decide),
      dictLookup_dictSet_ne _ _ _ _ (by decide),
      dictLookup_dictSet_self]
    by_cases hr : r = 0 <;> simp [pyEqIntZero, hr]
  · rw [dictLookup_dictSet_ne _ _ _ _ (by decide),
      dictLookup_dictSet_self]

/-- Witness for C1 at both concrete returncodes of the spec's example:
a negative-test step whose function returns returncode 0 records
returncode 1 with original 0, and one returning 5 records returncode 0
with original 5. -/
theorem negative_test_inversion_witness :
    (dictLookup (execute_test_step Option.none
        (fun _ => Option.some (fun _ => FuncOutcome.ret [("returncode", PyVal.int 0)]))
        { step_number := 1, test_script := "s.py", test_function := "f",
          parameters := PyVal.dict [] } "tc" true).result "returncode"
      = Option.some (PyVal.int 1) ∧
     dictLookup (execute_test_step Option.none
        (fun _ => Option.some (fun _ => FuncOutcome.ret [("returncode", PyVal.int 0)]))
        { step_number := 1, test_script := "s.py", test_function := "f",
          parameters := PyVal.dict [] } "tc" true).result "original_returncode"
      = Option.some (PyVal.int 0)) ∧
    (dictLookup (execute_test_step Option.none
        (fun _ => Option.some (fun _ => FuncOutcome.ret [("returncode", PyVal.int 5)]))
        { step_number := 1, test_script := "s.py", test_function := "f",
          parameters := PyVal.dict [] } "tc" true).result "returncode"
      = Option.some (PyVal.int 0) ∧
     dictLookup (execute_test_step Option.none
        (fun _ => Option.some (fun _ => FuncOutcome.ret [("returncode", PyVal.int 5)]))
        { step_number := 1, test_script := "s.py", test_function := "f",
          parameters := PyVal.dict [] } "tc" true).result "original_returncode"
      = Option.some (PyVal.int 5)) := by
  constructor
  · have h := negative_test_inversion Option.none
      (fun _ => Option.some (fun _ => FuncOutcome.ret [("returncode", PyVal.int 0)]))
      { step_number := 1, test_script := "s.py", test_function := "f",
        parameters := PyVal.dict [] } "tc"
      (fun _ => FuncOutcome.ret [("returncode", PyVal.int 0)]) (PyVal.dict [])
      [("returncode", PyVal.int 0)] 0 rfl rfl rfl rfl
    simpa using h
  · have h := negative_test_inversion Option.none
      (fun _ => Option.some (fun _ => FuncOutcome.ret [("returncode", PyVal.int 5)]))
      { step_number := 1, test_script := "s.py", test_function := "f",
        parameters := PyVal.dict [] } "tc"
      (fun _ => FuncOutcome.ret [("returncode", PyVal.int 5)]) (PyVal.dict [])
      [("returncode", PyVal.int 5)] 5 rfl rfl rfl rfl
    simpa using h

/-! ### C4 — exceptions inside a step function are caught and recorded -/

/-- C4: a step whose invoked function raises an exception yields a
failure record with `returncode = 4` whose `exception` field is the
exception text verbatim (the whole canned map of the `except` branch),
and the engine — a total function — still produces one record per step
of the case, so the plan continues. -/
theorem step_exception_caught
    (tmp : Option String) (env : ResolutionEnv) (step : Step)
    (name : String) (neg : Bool) (f : PyVal → FuncOutcome)
    (processed : PyVal) (e : String)
    (henv : env step = Option.some f)
    (hproc : process_parameters tmp step.parameters = Except.ok processed)
    (hraise : f processed = FuncOutcome.raise e) :
    (execute_test_step tmp env step name neg).result = execErrorResult e ∧
    dictLookup (execute_test_step tmp env step name neg).result "exception"
      = Option.some (PyVal.str e) ∧
    dictLookup (execute_test_step tmp env step name neg).result "returncode"
      = Option.some (PyVal.int 4) ∧
    ∀ tc : TestCase, (execute_test_case tmp env tc).length = tc.steps.length := by
  have hres : (execute_test_step tmp env step name neg).result = execErrorResult e := by
    rw [execute_test_step_result]
    simp only [henv, hproc, hraise]
  refine ⟨hres, ?_, ?_, ?_⟩
  · rw [hres]; simp [execErrorResult, dictLookup]
  · rw [hres]; simp [execErrorResult, dictLookup]
  · intro tc
    simp [execute_test_case]

/-- Witness for C4: a concrete raising step function is recorded with
returncode 4 and its message, and a one-step case still yields one
record. -/
theorem step_exception_caught_witness :
    (execute_test_step Option.none
      (fun _ => Option.some (fun _ => FuncOutcome.raise "boom"))
      { step_number := 1, test_script := "s.py", test_function := "f",
        parameters := PyVal.dict [] } "tc" false).result = execErrorResult "boom" ∧
    dictLookup (execute_test_step Option.none
      (fun _ => Option.some (fun _ => FuncOutcome.raise "boom"))
      { step_number := 1, test_script := "s.py", test_function := "f",
        parameters := PyVal.dict [] } "tc" false).result "exception"
      = Option.some (PyVal.str "boom") ∧
    dictLookup (execute_test_step Option.none
      (fun _ => Option.some (fun _ => FuncOutcome.raise "boom"))
      { step_number := 1, test_script := "s.py", test_function := "f",
        parameters := PyVal.dict [] } "tc" false).result "returncode"
      = Option.some (PyVal.int 4) ∧
    ∀ tc : TestCase, (execute_test_case Option.none
      (fun _ => Option.some (fun _ => FuncOutcome.raise "boom")) tc).length
        = tc.steps.length :=
  step_exception_caught Option.none
    (fun _ => Option.some (fun _ => FuncOutcome.raise "boom"))
    { step_number := 1, test_script := "s.py", test_function := "f",
      parameters := PyVal.dict [] } "tc" false
    (fun _ => FuncOutcome.raise "boom") (PyVal.dict []) "boom" rfl rfl rfl

/-! ### C6 — every recorded result map carries a returncode -/

/-- C6: on every path of `execute_test_step` — import failure,
exception, and the success path for step functions honoring the
Step-Result ABI (their returned map carries `"returncode"`) — the
recorded result map contains a `returncode` key. -/
theorem record_returncode_present
    (tmp : Option String) (env : ResolutionEnv) (step : Step)
    (name : String) (neg : Bool)
    (habi : ∀ (f : PyVal → FuncOutcome) (processed : PyVal) (m : PyDict),
      env step = Option.some f → f processed = FuncOutcome.ret m →
      (dictLookup m "returncode").isSome) :
    (dictLookup (execute_test_step tmp env step name neg).result "returncode").isSome := by
  rw [execute_test_step_result]
  cases henv : env step with
  | none => simp [importFailResult, dictLookup]
  | some f =>
    cases hproc : process_parameters tmp step.parameters with
    | error e => simp [execErrorResult, dictLookup]
    | ok processed =>
      cases hret : f processed with
      | raise e => simp [hret, execErrorResult, dictLookup]
      | ret m =>
        simp only [hret]
        cases neg with
        | false =>
          simpa using habi f processed m henv hret
        | true =>
          simp only [if_true]
          unfold invertNegative
          rw [dictLookup_dictSet_ne _ _ _ _ (by decide),
            dictLookup_dictSet_ne _ _ _ _ (by decide),
            dictLookup_dictSet_self]
          rfl

/-- Witness for C6 on a concrete environment (an ABI-honoring step
function returning returncode 0). -/
theorem record_returncode_present_witness :
    (dictLookup (execute_test_step Option.none
      (fun _ => Option.some (fun _ => FuncOutcome.ret [("returncode", PyVal.int 0)]))
      { step_number := 1, test_script := "s.py", test_function := "f",
        parameters := PyVal.dict [] } "tc" false).result "returncode").isSome :=
  record_returncode_present Option.none
    (fun _ => Option.some (fun _ => FuncOutcome.ret [("returncode", PyVal.int 0)]))
    { step_number := 1, test_script := "s.py", test_function := "f",
      parameters := PyVal.dict [] } "tc" false
    (by
      intro f processed m henv hret
      cases henv
      cases hret
      rfl)

/-! ### C8 — import failure: canned returncode-3 record, nothing invoked -/

/-- C8: when the step's function cannot be resolved, the engine records
exactly the canned returncode-3 map with exception text "Function import
failed"; the record does not depend on the temp area or on any other
resolution environment also failing on this step (so no parameter
resolution is applied and nothing is invoked); the stored parameters are
the step's verbatim; and the case still yields one record per step. -/
theorem import_failure_canned
    (tmp tmp' : Option String) (env env' : ResolutionEnv) (step : Step)
    (name : String) (neg : Bool)
    (henv : env step = Option.none) (henv' : env' step = Option.none) :
    (execute_test_step tmp env step name neg).result = importFailResult step.test_function ∧
    dictLookup (execute_test_step tmp env step name neg).result "exception"
      = Option.some (PyVal.str "Function import failed") ∧
    dictLookup (execute_test_step tmp env step name neg).result "returncode"
      = Option.some (PyVal.int 3) ∧
    execute_test_step tmp env step name neg = execute_test_step tmp' env' step name neg ∧
    (execute_test_step tmp env step name neg).parameters = step.parameters ∧
    ∀ tc : TestCase, (execute_test_case tmp env tc).length = tc.steps.length := by
  have hstep : ∀ (t : Option String) (ev : ResolutionEnv), ev step = Option.none →
      execute_test_step t ev step name neg =
        { test_case := name, step_number := step.step_number,
          test_script := step.test_script, test_function := step.test_function,
          parameters := step.parameters, is_negative_test := neg,
          result := importFailResult step.test_function } := by
    intro t ev hev
    unfold execute_test_step
    rw [hev]
  refine ⟨?_, ?_, ?_, ?_, ?_, ?_⟩
  · rw [hstep tmp env henv]
  · rw [hstep tmp env henv]
    simp [importFailResult, dictLookup]
  · rw [hstep tmp env henv]
    simp [importFailResult, dictLookup]
  · rw [hstep tmp env henv, hstep tmp' env' henv']
  · rw [hstep tmp env henv]
  · intro tc
    simp [execute_test_case]

/-- Witness for C8 on a concrete step with an always-failing loader. -/
theorem import_failure_canned_witness :
    (execute_test_step (Option.some "/T") (fun _ => Option.none)
      { step_number := 1, test_script := "s.py", test_function := "f",
        parameters := PyVal.dict [] } "tc" false).result = importFailResult "f" ∧
    dictLookup (execute_test_step (Option.some "/T") (fun _ => Option.none)
      { step_number := 1, test_script := "s.py", test_function := "f",
        parameters := PyVal.dict [] } "tc" false).result "exception"
      = Option.some (PyVal.str "Function import failed") ∧
    dictLookup (execute_test_step (Option.some "/T") (fun _ => Option.none)
      { step_number := 1, test_script := "s.py", test_function := "f",
        parameters := PyVal.dict [] } "tc" false).result "returncode"
      = Option.some (PyVal.int 3) ∧
    execute_test_step (Option.some "/T") (fun _ => Option.none)
      { step_number := 1, test_script := "s.py", test_function := "f",
        parameters := PyVal.dict [] } "tc" false
      = execute_test_step Option.none (fun _ => Option.none)
      { step_number := 1, test_script := "s.py", test_function := "f",
        parameters := PyVal.dict [] } "tc" false ∧
    (execute_test_step (Option.some "/T") (fun _ => Option.none)
      { step_number := 1, test_script := "s.py", test_function := "f",
        parameters := PyVal.dict [] } "tc" false).parameters = PyVal.dict [] ∧
    ∀ tc : TestCase, (execute_test_case (Option.some "/T") (fun _ => Option.none) tc).length
      = tc.steps.length :=
  import_failure_canned (Option.some "/T") Option.none
    (fun _ => Option.none) (fun _ => Option.none)
    { step_number := 1, test_script := "s.py", test_function := "f",
      parameters := PyVal.dict [] } "tc" false rfl rfl

/-! ### C10 — `<tmp>` resolution requires a created temp area -/

/-- C10: before `create_tmp_area` has run, `resolve_tmp_path` fails for
every input with the explicit configuration error (no null-path crash,
no silent pass-through); after `create_tmp_area` succeeds the manager
holds the composed path and resolution always returns a value. -/
theorem resolve_requires_created_area :
    (∀ v : PyVal, resolve_tmp_path Option.none v =
      Except.error "Temporary area not created. Call create_tmp_area() first.") ∧
    (∀ base execution_id : String,
      (create_tmp_area base execution_id).1.tmp_framework_path =
        Option.some (pyJoin base execution_id)) ∧
    (∀ base execution_id : String, ∀ v : PyVal,
      ∃ w : PyVal, resolve_tmp_path
        (create_tmp_area base execution_id).1.tmp_framework_path v = Except.ok w) := by
  refine ⟨fun v => rfl, fun base execution_id => rfl, ?_⟩
  intro base execution_id v
  cases v with
  | str s =>
    by_cases hc : strContains s tmpToken
    · exact ⟨PyVal.str (resolveStringTag (pyJoin base execution_id) s),
        by simp [create_tmp_area, resolve_tmp_path, hc]⟩
    · exact ⟨PyVal.str s, by simp [create_tmp_area, resolve_tmp_path, hc]⟩
  | int n => exact ⟨_, rfl⟩
  | bool b => exact ⟨_, rfl⟩
  | none => exact ⟨_, rfl⟩
  | list items => exact ⟨_, rfl⟩
  | dict entries => exact ⟨_, rfl⟩

/-! ### Logger fold lemmas (shared by the totals and success-rate
claims) -/

theorem add_step_result_total (s : LoggerResults) (r : StepRecord) :
    (add_step_result s r).total_steps = s.total_steps + 1 := by
  unfold add_step_result
  by_cases hp : stepPassed r <;> simp [hp]

theorem add_step_result_passed (s : LoggerResults) (r : StepRecord) :
    (add_step_result s r).passed_steps =
      s.passed_steps + (if stepPassed r then 1 else 0) := by
  unfold add_step_result
  by_cases hp : stepPassed r <;> simp [hp]

theorem add_step_result_failed (s : LoggerResults) (r : StepRecord) :
    (add_step_result s r).failed_steps =
      s.failed_steps + (if stepPassed r then 0 else 1) := by
  unfold add_step_result
  by_cases hp : stepPassed r <;> simp [hp]

theorem logger_foldl_totals (rs : List StepRecord) :
    ∀ s : LoggerResults,
      (rs.foldl add_step_result s).total_steps = s.total_steps + rs.length ∧
      (rs.foldl add_step_result s).passed_steps =
        s.passed_steps + (rs.filter stepPassed).length ∧
      (rs.foldl add_step_result s).failed_steps =
        s.failed_steps + (rs.filter (fun r => !stepPassed r)).length := by
  induction rs with
  | nil => intro s; simp
  | cons r rest ih =>
    intro s
    obtain ⟨ht, hp, hf⟩ := ih (add_step_result s r)
    by_cases hpass : stepPassed r
    · simp only [List.foldl_cons, List.filter_cons, hpass, List.length_cons]
      refine ⟨?_, ?_, ?_⟩
      · rw [ht, add_step_result_total]; omega
      · rw [hp, add_step_result_passed]; simp only [hpass, if_true, List.length_cons]; omega
      · rw [hf, add_step_result_failed]; simp [hpass]
    · simp only [List.foldl_cons, List.filter_cons, hpass, List.length_cons]
      refine ⟨?_, ?_, ?_⟩
      · rw [ht, add_step_result_total]; omega
      · rw [hp, add_step_result_passed]; simp [hpass]
      · rw [hf, add_step_result_failed]
        simp [hpass]
        omega

theorem filter_pass_fail_length (rs : List StepRecord) :
    (rs.filter stepPassed).length + (rs.filter (fun r => !stepPassed r)).length
      = rs.length := by
  induction rs with
  | nil => rfl
  | cons r rest ih =>
    by_cases hpass : stepPassed r <;> simp [List.filter_cons, hpass] <;> omega

/-! ### C2 — logger running totals count every step exactly once -/

theorem logger_fold_counts (rs : List StepRecord) :
    (rs.foldl add_step_result startLoggerResults).total_steps = rs.length ∧
    (rs.foldl add_step_result startLoggerResults).passed_steps =
      (rs.filter stepPassed).length ∧
    (rs.foldl add_step_result startLoggerResults).failed_steps =
      (rs.filter (fun r => !stepPassed r)).length := by
  obtain ⟨ht, hp, hf⟩ := logger_foldl_totals rs startLoggerResults
  refine ⟨?_, ?_, ?_⟩
  · rw [ht]; simp [startLoggerResults]
  · rw [hp]; simp [startLoggerResults]
  · rw [hf]; simp [startLoggerResults]

theorem logger_fold_conserves (rs : List StepRecord) :
    (rs.foldl add_step_result startLoggerResults).total_steps = rs.length ∧
    (rs.foldl add_step_result startLoggerResults).passed_steps +
      (rs.foldl add_step_result startLoggerResults).failed_steps =
      (rs.foldl add_step_result startLoggerResults).total_steps := by
  obtain ⟨ht, hp, hf⟩ := logger_fold_counts rs
  refine ⟨ht, ?_⟩
  rw [ht, hp, hf]
  exact filter_pass_fail_length rs

/-- C2: after every sequence of `add_step_result` calls from
`start_execution`'s zeroed totals, `total_steps` equals the number of
steps added, each step is counted as passed exactly when its result's
returncode equals 0 and as failed otherwise, and
`passed_steps + failed_steps = total_steps`; in particular this holds
for the records a plan execution feeds the logger, whose count is the
plan's executed step count. -/
theorem logger_running_totals :
    (∀ rs : List StepRecord,
      (rs.foldl add_step_result startLoggerResults).total_steps = rs.length ∧
      (rs.foldl add_step_result startLoggerResults).passed_steps =
        (rs.filter stepPassed).length ∧
      (rs.foldl add_step_result startLoggerResults).failed_steps =
        (rs.filter (fun r => !stepPassed r)).length ∧
      (rs.foldl add_step_result startLoggerResults).passed_steps +
        (rs.foldl add_step_result startLoggerResults).failed_steps =
        (rs.foldl add_step_result startLoggerResults).total_steps) ∧
    (∀ (tmp : String) (env : ResolutionEnv) (test_case_id : Option Int)
        (plan : TestPlan),
      (execute_test_plan tmp env test_case_id plan).logger.total_steps =
        (execute_test_plan tmp env test_case_id plan).results.test_cases.length ∧
      (execute_test_plan tmp env test_case_id plan).logger.passed_steps +
        (execute_test_plan tmp env test_case_id plan).logger.failed_steps =
        (execute_test_plan tmp env test_case_id plan).logger.total_steps) := by
  constructor
  · intro rs
    obtain ⟨ht, hp, hf⟩ := logger_fold_counts rs
    exact ⟨ht, hp, hf, (logger_fold_conserves rs).2⟩
  · intro tmp env test_case_id plan
    unfold execute_test_plan
    dsimp only
    split
    · simp [startLoggerResults]
    · exact (logger_fold_conserves _).imp id (fun h => h)

/-! ### C7 — success rate guarded against division by zero everywhere -/

theorem add_step_result_rate (s : LoggerResults) (r : StepRecord) :
    (add_step_result s r).success_rate =
      ((add_step_result s r).passed_steps : ℚ) /
        ((add_step_result s r).total_steps : ℚ) * 100 := by
  unfold add_step_result
  by_cases hp : stepPassed r <;> simp [hp]

theorem logger_foldl_rate : ∀ (rs : List StepRecord) (s : LoggerResults),
    rs ≠ [] →
    (rs.foldl add_step_result s).success_rate =
      ((rs.foldl add_step_result s).passed_steps : ℚ) /
        ((rs.foldl add_step_result s).total_steps : ℚ) * 100
  | [], _, h => absurd rfl h
  | [r], s, _ => by simpa using add_step_result_rate s r
  | r :: r' :: rest, s, _ => by
    simpa using logger_foldl_rate (r' :: rest) (add_step_result s r) (by simp)

/-- C7: the success rate is `passed/total*100` whenever `total > 0`,
and a defined value when `total = 0`, in each place it is derived —
the JSON logger running totals (0.0 until a step is added, then always
the formula), the plan-summary display (`none` models "N/A"), and the
aggregate report (0 when no step ran); no site divides by zero. -/
theorem success_rate_guarded :
    (∀ rs : List StepRecord,
      ((rs.foldl add_step_result startLoggerResults).total_steps = 0 →
        (rs.foldl add_step_result startLoggerResults).success_rate = 0) ∧
      (0 < (rs.foldl add_step_result startLoggerResults).total_steps →
        (rs.foldl add_step_result startLoggerResults).success_rate =
          ((rs.foldl add_step_result startLoggerResults).passed_steps : ℚ) /
            ((rs.foldl add_step_result startLoggerResults).total_steps : ℚ) * 100)) ∧
    (∀ total_steps passed_steps : Nat,
      displaySummarySuccessRate total_steps passed_steps =
        if 0 < total_steps then
          Option.some ((passed_steps : ℚ) / (total_steps : ℚ) * 100)
        else Option.none) ∧
    (∀ results : List (List StepRecord),
      (create_test_execution_report_summary results).success_rate =
        if 0 < (create_test_execution_report_summary results).total_steps then
          ((create_test_execution_report_summary results).total_passed : ℚ) /
            ((create_test_execution_report_summary results).total_steps : ℚ) * 100
        else 0) := by
  refine ⟨?_, ?_, ?_⟩
  · intro rs
    constructor
    · intro h0
      cases rs with
      | nil => rfl
      | cons r rest =>
        exfalso
        have := (logger_fold_counts (r :: rest)).1
        rw [h0] at this
        simp at this
    · intro hpos
      cases rs with
      | nil => simp [startLoggerResults] at hpos
      | cons r rest => exact logger_foldl_rate (r :: rest) startLoggerResults (by simp)
  · intro total_steps passed_steps
    rfl
  · intro results
    rfl

/-- A concrete passing Execution Record for witness instantiations. -/
def demoPassRecord : StepRecord :=
  { test_case := "tc", step_number := 1, test_script := "s.py",
    test_function := "f", parameters := PyVal.dict [],
    is_negative_test := false, result := [("returncode", PyVal.int 0)] }

/-- Witness for C7: the logger part applied to the empty history
(rate 0 at total 0) and to one passing step (rate 100/1). -/
theorem success_rate_guarded_witness :
    (([] : List StepRecord).foldl add_step_result startLoggerResults).success_rate = 0 ∧
    ([demoPassRecord].foldl add_step_result startLoggerResults).success_rate =
      (([demoPassRecord].foldl add_step_result startLoggerResults).passed_steps : ℚ) /
        (([demoPassRecord].foldl add_step_result startLoggerResults).total_steps : ℚ) * 100 :=
  ⟨(success_rate_guarded.1 []).1 rfl,
   (success_rate_guarded.1 [demoPassRecord]).2 (by decide)⟩

/-! ### C5 — filter miss: temp area lifecycle runs, logging does not
finish -/

/-- A concrete two-case plan whose ids are 1 and 2, for exercising a
test-case-id filter that matches neither. -/
def twoCasePlan : TestPlan :=
  { name := "plan",
    test_cases :=
      [{ id := 1, name := "case1", negative_test := false,
         steps := [{ step_number := 1, test_script := "s.py",
                     test_function := "f", parameters := PyVal.dict [] }] },
       { id := 2, name := "case2", negative_test := false, steps := [] }] }

/-- A resolution environment in which every import fails. -/
def failingEnv : ResolutionEnv := fun _ => Option.none

/-- Counterexample to C5 as stated: with a filter that matches no case
(id 3 against ids 1 and 2), the plan execution creates and cleans up the
temp area and executes zero steps, but the logging lifecycle does NOT
run to completion — `finish_execution` is never reached (no log file is
written) and the summary display is skipped, because
`execute_test_plan` returns early (test_library.py:212-216) before
lines 226-242. -/
theorem filter_miss_logging_incomplete :
    (execute_test_plan "/T" failingEnv (Option.some 3) twoCasePlan).events =
      [PlanEvent.startLogging, PlanEvent.createTmp, PlanEvent.displayPlanStart,
       PlanEvent.cleanupTmp] ∧
    PlanEvent.createTmp ∈ (execute_test_plan "/T" failingEnv (Option.some 3) twoCasePlan).events ∧
    PlanEvent.cleanupTmp ∈ (execute_test_plan "/T" failingEnv (Option.some 3) twoCasePlan).events ∧
    PlanEvent.addStepToLogger ∉ (execute_test_plan "/T" failingEnv (Option.some 3) twoCasePlan).events ∧
    PlanEvent.finishLogging ∉ (execute_test_plan "/T" failingEnv (Option.some 3) twoCasePlan).events ∧
    PlanEvent.displaySummary ∉ (execute_test_plan "/T" failingEnv (Option.some 3) twoCasePlan).events := by
  refine ⟨rfl, ?_, ?_, ?_, ?_, ?_⟩ <;> decide

/-- C5 (amended): when the test-case-id filter matches no case, the
plan execution creates the temp area, executes zero steps, cleans the
temp area up and returns the (empty) plan results without crashing —
but the JSON logging lifecycle stops after `start_execution`: neither
`finish_execution` (the log-file write) nor the summary display runs. -/
theorem filter_miss_lifecycle
    (tmp : String) (env : ResolutionEnv) (i : Int) (plan : TestPlan)
    (hmiss : plan.test_cases.filter (fun tc => tc.id == i) = []) :
    (execute_test_plan tmp env (Option.some i) plan).events =
      [PlanEvent.startLogging, PlanEvent.createTmp, PlanEvent.displayPlanStart,
       PlanEvent.cleanupTmp] ∧
    (execute_test_plan tmp env (Option.some i) plan).results =
      { plan_name := plan.name, test_cases := [] } ∧
    (execute_test_plan tmp env (Option.some i) plan).logger = startLoggerResults ∧
    PlanEvent.addStepToLogger ∉ (execute_test_plan tmp env (Option.some i) plan).events ∧
    PlanEvent.finishLogging ∉ (execute_test_plan tmp env (Option.some i) plan).events ∧
    PlanEvent.displaySummary ∉ (execute_test_plan tmp env (Option.some i) plan).events := by
  have hout : execute_test_plan tmp env (Option.some i) plan =
      { events := [PlanEvent.startLogging, PlanEvent.createTmp,
          PlanEvent.displayPlanStart, PlanEvent.cleanupTmp]
        results := { plan_name := plan.name, test_cases := [] }
        logger := startLoggerResults } := by
    unfold execute_test_plan
    rw [if_pos]
    · rfl
    · exact ⟨rfl, by simp [hmiss]⟩
  rw [hout]
  refine ⟨rfl, rfl, rfl, ?_, ?_, ?_⟩ <;> (dsimp only; decide)

/-- Witness for the amended C5 on the concrete two-case plan with a
missing id. -/
theorem filter_miss_lifecycle_witness :
    twoCasePlan.test_cases.filter (fun tc => tc.id == (3 : Int)) = [] ∧
    ((execute_test_plan "/T" failingEnv (Option.some 3) twoCasePlan).results =
      { plan_name := twoCasePlan.name, test_cases := [] } ∧
     (execute_test_plan "/T" failingEnv (Option.some 3) twoCasePlan).logger =
      startLoggerResults) :=
  ⟨rfl,
   (filter_miss_lifecycle "/T" failingEnv 3 twoCasePlan rfl).2.1,
   (filter_miss_lifecycle "/T" failingEnv 3 twoCasePlan rfl).2.2.1⟩

/-! ### C3 — `<tmp>` resolution depth of `process_parameters` -/

/-- A parameter tree whose only string leaf sits inside a sequence
nested directly within another sequence. -/
def nestedSeqParams : PyVal :=
  PyVal.dict [("k", PyVal.list [PyVal.list [PyVal.str "<tmp>/x"]])]

/-- Counterexample to C3 as stated: with the temp area at `/T`,
`process_parameters` returns `nestedSeqParams` completely unchanged —
the string leaf `"<tmp>/x"` inside the sequence-within-a-sequence is
not substituted (the list comprehension's `else item` branch,
tmp_area_library.py:206, passes nested lists through verbatim), even
though resolving that leaf would produce `"/T/x"`. -/
theorem nested_sequence_not_resolved :
    process_parameters (Option.some "/T") nestedSeqParams =
      Except.ok nestedSeqParams ∧
    resolve_tmp_path (Option.some "/T") (PyVal.str "<tmp>/x") =
      Except.ok (PyVal.str "/T/x") ∧
    "/T/x" ≠ "<tmp>/x" :=
  ⟨rfl, rfl, by decide⟩

mutual

theorem processDictValue_eq_spec (tmp : Option String) :
    (v : PyVal) → noSeqInSeq v = true →
    processDictValue tmp v = spec_deep_resolve tmp v
  | PyVal.str s, _ => by simp [processDictValue, spec_deep_resolve]
  | PyVal.int n, _ => by simp [processDictValue, spec_deep_resolve]
  | PyVal.bool b, _ => by simp [processDictValue, spec_deep_resolve]
  | PyVal.none, _ => by simp [processDictValue, spec_deep_resolve]
  | PyVal.dict es, h => by
    have hes := processDictEntries_eq_spec tmp es (by simpa [noSeqInSeq] using h)
    simp [processDictValue, spec_deep_resolve, hes]
  | PyVal.list items, h => by
    have hi := processListItems_eq_spec tmp items (by simpa [noSeqInSeq] using h)
    simp [processDictValue, spec_deep_resolve, hi]

theorem processDictEntries_eq_spec (tmp : Option String) :
    (es : List (String × PyVal)) → noSeqInSeqEntries es = true →
    processDictEntries tmp es = specDeepResolveEntries tmp es
  | [], _ => rfl
  | (k, v) :: rest, h => by
    have h' : noSeqInSeq v = true ∧ noSeqInSeqEntries rest = true := by
      simpa [noSeqInSeqEntries] using h
    have hv := processDictValue_eq_spec tmp v h'.1
    have hr := processDictEntries_eq_spec tmp rest h'.2
    simp [processDictEntries, specDeepResolveEntries, hv, hr]

theorem processListItems_eq_spec (tmp : Option String) :
    (items : List PyVal) → noSeqInSeqItems items = true →
    processListItems tmp items = specDeepResolveItems tmp items
  | [], _ => rfl
  | PyVal.str s :: rest, h => by
    have h' : noSeqInSeq (PyVal.str s) = true ∧ noSeqInSeqItems rest = true := by
      simpa [noSeqInSeqItems] using h
    have hr := processListItems_eq_spec tmp rest h'.2
    simp [processListItems, specDeepResolveItems, spec_deep_resolve, hr]
  | PyVal.int n :: rest, h => by
    have h' : noSeqInSeq (PyVal.int n) = true ∧ noSeqInSeqItems rest = true := by
      simpa [noSeqInSeqItems] using h
    have hr := processListItems_eq_spec tmp rest h'.2
    simp [processListItems, specDeepResolveItems, spec_deep_resolve, hr]
  | PyVal.bool b :: rest, h => by
    have h' : noSeqInSeq (PyVal.bool b) = true ∧ noSeqInSeqItems rest = true := by
      simpa [noSeqInSeqItems] using h
    have hr := processListItems_eq_spec tmp rest h'.2
    simp [processListItems, specDeepResolveItems, spec_deep_resolve, hr]
  | PyVal.none :: rest, h => by
    have h' : noSeqInSeq (PyVal.none) = true ∧ noSeqInSeqItems rest = true := by
      simpa [noSeqInSeqItems] using h
    have hr := processListItems_eq_spec tmp rest h'.2
    simp [processListItems, specDeepResolveItems, spec_deep_resolve, hr]
  | PyVal.dict es :: rest, h => by
    have h' : noSeqInSeqEntries es = true ∧ noSeqInSeqItems rest = true := by
      simpa [noSeqInSeqItems, noSeqInSeq] using h
    have hes := processDictEntries_eq_spec tmp es h'.1
    have hr := processListItems_eq_spec tmp rest h'.2
    simp [processListItems, specDeepResolveItems, spec_deep_resolve, hes, hr]
  | PyVal.list items' :: rest, h => by
    exfalso
    simp [noSeqInSeqItems] at h

end

/-- C3 (amended): `process_parameters` performs the full deep walk of
the spec — resolving every string leaf, recursing through maps and
sequences, passing non-string scalars through — on every parameter map
in which no sequence occurs directly inside another sequence; a string
leaf below a sequence-in-a-sequence, however, is passed through
unresolved. -/
theorem process_parameters_deep_on_unnested (t : String)
    (entries : List (String × PyVal))
    (h : noSeqInSeqEntries entries = true) :
    process_parameters (Option.some t) (PyVal.dict entries) =
      spec_deep_resolve (Option.some t) (PyVal.dict entries) := by
  have hes := processDictEntries_eq_spec (Option.some t) entries h
  simp [process_parameters, spec_deep_resolve, hes]

/-- Witness for the amended C3 on a tree exercising strings, ints,
`None`, a nested map, and strings one sequence level deep. -/
theorem process_parameters_deep_on_unnested_witness :
    noSeqInSeqEntries
      [("a", PyVal.str "<tmp>/x"), ("n", PyVal.int 3),
       ("b", PyVal.dict [("c", PyVal.str "<tmp>/y"), ("z", PyVal.none)]),
       ("d", PyVal.list [PyVal.str "<tmp>/z", PyVal.int 7,
          PyVal.dict [("e", PyVal.str "<tmp>/w")]])] = true ∧
    process_parameters (Option.some "/T")
      (PyVal.dict
        [("a", PyVal.str "<tmp>/x"), ("n", PyVal.int 3),
         ("b", PyVal.dict [("c", PyVal.str "<tmp>/y"), ("z", PyVal.none)]),
         ("d", PyVal.list [PyVal.str "<tmp>/z", PyVal.int 7,
            PyVal.dict [("e", PyVal.str "<tmp>/w")]])]) =
      spec_deep_resolve (Option.some "/T")
      (PyVal.dict
        [("a", PyVal.str "<tmp>/x"), ("n", PyVal.int 3),
         ("b", PyVal.dict [("c", PyVal.str "<tmp>/y"), ("z", PyVal.none)]),
         ("d", PyVal.list [PyVal.str "<tmp>/z", PyVal.int 7,
            PyVal.dict [("e", PyVal.str "<tmp>/w")]])]) :=
  ⟨rfl,
   process_parameters_deep_on_unnested "/T"
     [("a", PyVal.str "<tmp>/x"), ("n", PyVal.int 3),
      ("b", PyVal.dict [("c", PyVal.str "<tmp>/y"), ("z", PyVal.none)]),
      ("d", PyVal.list [PyVal.str "<tmp>/z", PyVal.int 7,
         PyVal.dict [("e", PyVal.str "<tmp>/w")]])] rfl⟩

/-! ### C9 — `process_parameters` never mutates the caller's structure -/

/-- Heap preservation: every address present before is unchanged after,
and the heap only grows. -/
def Pres (h h' : Heap) : Prop :=
  (∀ i, i < h.cells.length → h'.cells.get? i = h.cells.get? i) ∧
  h.cells.length ≤ h'.cells.length

/-- Heap preservation away from one (freshly allocated) address. -/
def PresExcept (a : Nat) (h h' : Heap) : Prop :=
  (∀ i, i < h.cells.length → i ≠ a → h'.cells.get? i = h.cells.get? i) ∧
  h.cells.length ≤ h'.cells.length

theorem Pres.refl (h : Heap) : Pres h h := ⟨fun _ _ => rfl, le_refl _⟩

theorem pres_compose {h1 h2 h3 : Heap} (p : Pres h1 h2) (q : Pres h2 h3) :
    Pres h1 h3 := by
  refine ⟨fun i hi => ?_, le_trans p.2 q.2⟩
  rw [q.1 i (lt_of_lt_of_le hi p.2), p.1 i hi]

theorem Pres.presExcept {a : Nat} {h1 h2 : Heap} (p : Pres h1 h2) :
    PresExcept a h1 h2 := ⟨fun i hi _ => p.1 i hi, p.2⟩

theorem presExcept_compose {a : Nat} {h1 h2 h3 : Heap}
    (p : PresExcept a h1 h2) (q : PresExcept a h2 h3) : PresExcept a h1 h3 := by
  refine ⟨fun i hi hia => ?_, le_trans p.2 q.2⟩
  rw [q.1 i (lt_of_lt_of_le hi p.2) hia, p.1 i hi hia]

theorem alloc_pres (h : Heap) (c : HCell) : Pres h (h.alloc c).1 := by
  refine ⟨fun i hi => ?_, ?_⟩
  · simp only [Heap.alloc]
    exact List.get?_append hi
  · simp [Heap.alloc]

theorem write_presExcept (h : Heap) (a : Nat) (c : HCell) :
    PresExcept a h (h.write a c) := by
  refine ⟨fun i hi hia => ?_, ?_⟩
  · simp only [Heap.write]
    rw [List.get?_set_ne _ _ (fun hh => hia hh.symm)]
  · simp [Heap.write]

theorem appendEntry_presExcept (h : Heap) (a : Nat) (k : String) (v : HRef) :
    PresExcept a h (h.appendEntry a k v) := by
  unfold Heap.appendEntry
  cases h.read a with
  | none => exact (Pres.refl h).presExcept
  | some c =>
    cases c with
    | dict es => exact write_presExcept h a _
    | list items => exact (Pres.refl h).presExcept

/-- Main preservation induction over the call-stack fuel: every
successful run of the heap-level `process_parameters` (and of its entry
loop, value branch and list comprehension) leaves every pre-existing
heap cell untouched and only appends fresh cells (the only write is the
entry assignment into the dict the call itself allocated). -/
theorem hProcess_preserves (t : String) : ∀ fuel : Nat,
    (∀ h r h' r', hProcessParameters t fuel h r = Option.some (h', r') → Pres h h') ∧
    (∀ h aNew es h',
      hProcessEntries t fuel h aNew es = Option.some h' → PresExcept aNew h h') ∧
    (∀ h v h' v', hProcessValue t fuel h v = Option.some (h', v') → Pres h h') ∧
    (∀ h items h' items',
      hProcessItems t fuel h items = Option.some (h', items') → Pres h h') := by
  intro fuel
  induction fuel with
  | zero =>
    refine ⟨?_, ?_, ?_, ?_⟩ <;> intros <;> simp_all [hProcessParameters,
      hProcessEntries, hProcessValue, hProcessItems]
  | succ fuel ih =>
    obtain ⟨ihP, ihE, ihV, ihI⟩ := ih
    have stepDict : ∀ h (a : Nat) entries h' r',
        (match hProcessEntries t fuel (h.alloc (HCell.dict [])).1
            (h.alloc (HCell.dict [])).2 entries with
         | Option.some h2 => Option.some (h2, HRef.addr (h.alloc (HCell.dict [])).2)
         | Option.none => (Option.none : Option (Heap × HRef)))
          = Option.some (h', r') → Pres h h' := by
      intro h a entries h' r' hrun
      cases hE : hProcessEntries t fuel (h.alloc (HCell.dict [])).1
          (h.alloc (HCell.dict [])).2 entries with
      | none => rw [hE] at hrun; exact absurd hrun (by simp)
      | some h2 =>
        rw [hE] at hrun
        cases hrun
        have halloc : Pres h (h.alloc (HCell.dict [])).1 := alloc_pres h _
        have hE' := ihE (h.alloc (HCell.dict [])).1 (h.alloc (HCell.dict [])).2
          entries h' hE
        refine ⟨fun i hi => ?_, le_trans halloc.2 hE'.2⟩
        have hia : i ≠ (h.alloc (HCell.dict [])).2 := by
          simp only [Heap.alloc]
          omega
        rw [hE'.1 i (lt_of_lt_of_le hi halloc.2) hia, halloc.1 i hi]
    refine ⟨?_, ?_, ?_, ?_⟩
    · -- hProcessParameters
      intro h r h' r' hrun
      cases r with
      | prim p =>
        simp only [hProcessParameters] at hrun
        cases hrun
        exact Pres.refl h
      | addr a =>
        simp only [hProcessParameters] at hrun
        cases hread : h.read a with
        | none => rw [hread] at hrun; cases hrun; exact Pres.refl h
        | some c =>
          cases c with
          | list items => rw [hread] at hrun; cases hrun; exact Pres.refl h
          | dict entries =>
            rw [hread] at hrun
            exact stepDict h a entries h' r' hrun
    · -- hProcessEntries
      intro h aNew es h' hrun
      cases es with
      | nil =>
        simp only [hProcessEntries] at hrun
        cases hrun
        exact (Pres.refl h).presExcept
      | cons kv rest =>
        obtain ⟨k, v⟩ := kv
        simp only [hProcessEntries] at hrun
        cases hV : hProcessValue t fuel h v with
        | none => rw [hV] at hrun; exact absurd hrun (by simp)
        | some hv' =>
          obtain ⟨h1, v'⟩ := hv'
          rw [hV] at hrun
          have p1 : Pres h h1 := ihV h v h1 v' hV
          have p2 : PresExcept aNew h1 (h1.appendEntry aNew k v') :=
            appendEntry_presExcept h1 aNew k v'
          have p3 : PresExcept aNew (h1.appendEntry aNew k v') h' :=
            ihE _ aNew rest h' hrun
          exact presExcept_compose (presExcept_compose p1.presExcept p2) p3
    · -- hProcessValue
      intro h v h' v' hrun
      cases v with
      | prim p =>
        cases p with
        | str s => simp only [hProcessValue] at hrun; cases hrun; exact Pres.refl h
        | int n => simp only [hProcessValue] at hrun; cases hrun; exact Pres.refl h
        | bool b => simp only [hProcessValue] at hrun; cases hrun; exact Pres.refl h
        | none => simp only [hProcessValue] at hrun; cases hrun; exact Pres.refl h
      | addr a =>
        simp only [hProcessValue] at hrun
        cases hread : h.read a with
        | none => rw [hread] at hrun; cases hrun; exact Pres.refl h
        | some c =>
          cases c with
          | dict entries =>
            rw [hread] at hrun
            exact stepDict h a entries h' v' hrun
          | list items =>
            rw [hread] at hrun
            dsimp only at hrun
            cases hI : hProcessItems t fuel h items with
            | none => rw [hI] at hrun; exact absurd hrun (by simp)
            | some hi' =>
              obtain ⟨h1, items'⟩ := hi'
              rw [hI] at hrun
              cases hrun
              exact pres_compose (ihI h items h1 items' hI) (alloc_pres h1 _)
    · -- hProcessItems
      intro h items h' items' hrun
      cases items with
      | nil =>
        simp only [hProcessItems] at hrun
        cases hrun
        exact Pres.refl h
      | cons item rest =>
        simp only [hProcessItems] at hrun
        have tailStep : ∀ (h1 : Heap) (item' : HRef), Pres h h1 →
            (match hProcessItems t fuel h1 rest with
             | Option.some (h2, rest') => Option.some (h2, item' :: rest')
             | Option.none => (Option.none : Option (Heap × List HRef)))
              = Option.some (h', items') →
            Pres h h' := by
          intro h1 item' p1 hrun'
          cases hR : hProcessItems t fuel h1 rest with
          | none => rw [hR] at hrun'; exact absurd hrun' (by simp)
          | some pr =>
            obtain ⟨h2, rest'⟩ := pr
            rw [hR] at hrun'
            dsimp only at hrun'
            cases hrun'
            exact pres_compose p1 (ihI h1 rest h' rest' hR)
        cases item with
        | prim p =>
          cases p with
          | str s =>
            dsimp only at hrun
            exact tailStep h _ (Pres.refl h) hrun
          | int n =>
            dsimp only at hrun
            exact tailStep h _ (Pres.refl h) hrun
          | bool b =>
            dsimp only at hrun
            exact tailStep h _ (Pres.refl h) hrun
          | none =>
            dsimp only at hrun
            exact tailStep h _ (Pres.refl h) hrun
        | addr a =>
          dsimp only at hrun
          cases hread : h.read a with
          | none =>
            rw [hread] at hrun
            dsimp only at hrun
            exact tailStep h _ (Pres.refl h) hrun
          | some c =>
            cases c with
            | list litems =>
              rw [hread] at hrun
              dsimp only at hrun
              exact tailStep h _ (Pres.refl h) hrun
            | dict entries =>
              rw [hread] at hrun
              dsimp only at hrun
              cases hE : hProcessEntries t fuel (h.alloc (HCell.dict [])).1
                  (h.alloc (HCell.dict [])).2 entries with
              | none =>
                rw [hE] at hrun
                exact absurd hrun (by simp)
              | some h1 =>
                rw [hE] at hrun
                dsimp only at hrun
                have pHead : Pres h h1 :=
                  stepDict h a entries h1 (HRef.addr (h.alloc (HCell.dict [])).2)
                    (by rw [hE])
                exact tailStep h1 _ pHead hrun

/-- C9: `process_parameters` is mutation-free — for every heap and
every input reference, a successful run leaves every pre-existing heap
cell (the caller's dicts and lists, however nested) exactly as it was,
only appending fresh cells; so after the call the original parameters
map equals its value before the call. -/
theorem process_parameters_no_mutation
    (t : String) (fuel : Nat) (h h' : Heap) (r r' : HRef)
    (hrun : hProcessParameters t fuel h r = Option.some (h', r')) :
    (∀ i, i < h.cells.length → h'.cells.get? i = h.cells.get? i) ∧
    h.cells.length ≤ h'.cells.length :=
  (hProcess_preserves t fuel).1 h r h' r' hrun

/-- A concrete input heap: a parameters dict (cell 0) holding a
`<tmp>`-tagged string and a list (cell 1) that itself contains a
`<tmp>`-tagged string and a nested list (cell 2). -/
def exHeap : Heap :=
  ⟨[HCell.dict [("k", HRef.prim (HPrim.str "<tmp>/x")), ("l", HRef.addr 1)],
    HCell.list [HRef.prim (HPrim.str "<tmp>/y"), HRef.addr 2],
    HCell.list [HRef.prim (HPrim.str "<tmp>/z")]]⟩

/-- The heap `process_parameters` leaves behind on `exHeap`: cells 0-2
untouched, a fresh result dict (cell 3) and a fresh list (cell 4)
sharing the original nested list at cell 2. -/
def exHeapOut : Heap :=
  ⟨[HCell.dict [("k", HRef.prim (HPrim.str "<tmp>/x")), ("l", HRef.addr 1)],
    HCell.list [HRef.prim (HPrim.str "<tmp>/y"), HRef.addr 2],
    HCell.list [HRef.prim (HPrim.str "<tmp>/z")],
    HCell.dict [("k", HRef.prim (HPrim.str "/T/x")), ("l", HRef.addr 4)],
    HCell.list [HRef.prim (HPrim.str "/T/y"), HRef.addr 2]]⟩

/-- Witness for C9: the concrete run returns a fresh dict address and
every pre-existing cell (0, 1 and 2) is unchanged. -/
theorem process_parameters_no_mutation_witness :
    hProcessParameters "/T" 10 exHeap (HRef.addr 0) =
      Option.some (exHeapOut, HRef.addr 3) ∧
    exHeapOut.cells.get? 0 = exHeap.cells.get? 0 ∧
    exHeapOut.cells.get? 1 = exHeap.cells.get? 1 ∧
    exHeapOut.cells.get? 2 = exHeap.cells.get? 2 :=
  ⟨rfl,
   (process_parameters_no_mutation "/T" 10 exHeap exHeapOut
     (HRef.addr 0) (HRef.addr 3) rfl).1 0 (by decide),
   (process_parameters_no_mutation "/T" 10 exHeap exHeapOut
     (HRef.addr 0) (HRef.addr 3) rfl).1 1 (by decide),
   (process_parameters_no_mutation "/T" 10 exHeap exHeapOut
     (HRef.addr 0) (HRef.addr 3) rfl).1 2 (by decide)⟩
